import Mathlib

/-!
Shallow embedding of the BMP encoder of src/canvas-to-bmp.ts
(class CanvasToBMP, method toArrayBuffer, lines 40 to 96).

Input model.  The method reads the canvas pixels through
getImageData, which yields an RGBA byte sequence of length
width * height * 4, row-major, top row first.  Acquiring that sequence
is the external collaborator step of the spec (sections 1 and 6); the
encoder under verification is the transformation from
(width, height, pixel bytes) to the BMP byte sequence, so the embedding
takes the pixel bytes as an argument.  Canvas dimensions are unsigned,
so width and height are naturals.

Buffer model.  Byte buffers are lists of naturals whose entries are
bytes: every write reduces its value modulo 256, which is exactly what
the byte-wise little-endian stores of DataView.setUint8, setUint16 and
setUint32 do, and the fresh ArrayBuffer of line 53 is a zero-filled
list, which is what JavaScript guarantees.  All stores the encoder
performs are in range, so modelling List.set (a no-op out of range) is
exact.

Pixel reads.  The source reads the pixel bytes through a Uint32Array
view (data32, line 45); on the little-endian platforms the code is
written for, element s of that view packs bytes 4*s to 4*s+3 in
little-endian order, which u32At reproduces.  Reading past the end of
the typed array yields the JavaScript value undefined, and every use
site of that value in the loop body coerces it to the byte 0, so the
out-of-range read is modelled as the byte 0.  Constructing the view
itself throws a RangeError when the byte length of the buffer is not a
multiple of 4; toArrayBufferChecked models that, returning none.

Arithmetic.  All numbers involved are exact in double precision for
any realizable canvas, so JavaScript Math.floor division and the
modulo and unsigned-shift operators coincide with natural floor
division and modulo, as used below.
-/

/-- Model of DataView.setUint8: store one byte (value taken mod 256) at
position pos of the buffer. -/
def setU8 (view : List Nat) (pos val : Nat) : List Nat :=
  view.set pos (val % 256)

/-- Model of DataView.setUint16(pos, val, true): little-endian, low
byte first. -/
def setU16 (view : List Nat) (pos val : Nat) : List Nat :=
  setU8 (setU8 view pos val) (pos + 1) (val / 256)

/-- Model of DataView.setUint32(pos, val, true): little-endian, low
byte first. -/
def setU32 (view : List Nat) (pos val : Nat) : List Nat :=
  setU16 (setU16 view pos val) (pos + 2) (val / 65536)

/-- Model of the closure setU16 of line 94: write at the running
position, then advance it by 2.  State is (buffer, pos). -/
def setU16c (st : List Nat × Nat) (data : Nat) : List Nat × Nat :=
  (setU16 st.1 st.2 data, st.2 + 2)

/-- Model of the closure setU32 of line 95: write at the running
position, then advance it by 4. -/
def setU32c (st : List Nat × Nat) (data : Nat) : List Nat × Nat :=
  (setU32 st.1 st.2 data, st.2 + 4)

/-- Byte i of the RGBA input buffer, that is idata.data[i]; indices
past the end read as 0 (see the module comment). -/
def byteAt (data : List Nat) (i : Nat) : Nat :=
  data.getD i 0 % 256

/-- Element s of data32: the little-endian 32-bit packing of input
bytes 4*s to 4*s+3, exactly what the Uint32Array view yields. -/
def u32At (data : List Nat) (s : Nat) : Nat :=
  byteAt data (4 * s) + 256 * byteAt data (4 * s + 1) +
    65536 * byteAt data (4 * s + 2) + 16777216 * byteAt data (4 * s + 3)

/-- Line 49 of the source: stride = Math.floor((24 * w + 23) / 24) * 3
(natural division is floor division). -/
def stride (w : Nat) : Nat :=
  ((24 * w + 23) / 24) * 3

/-- Line 50 of the source: pixelArraySize = stride * h. -/
def pixelArraySize (w h : Nat) : Nat :=
  stride w * h

/-- Line 51 of the source:
fileLength = headerSize + DIBHeaderSize + pixelArraySize. -/
def fileLength (w h : Nat) : Nat :=
  14 + 40 + pixelArraySize w h

/-- Buffer state after the file-header and DIB-header writes of
toArrayBuffer (lines 53 to 73): a fresh zero ArrayBuffer of fileLength
bytes written through the running-position closures.  The expression
h >>> 0 of line 66 is h itself for a natural below 2^32, and equals
h mod 2^32 in general, which the byte-wise stores already apply. -/
def headerBuf (w h : Nat) : List Nat :=
  let file := List.replicate (fileLength w h) 0
  let st := (file, 0)
  -- file header, lines 58 to 61
  let st := setU16c st 0x4d42
  let st := setU32c st (fileLength w h)
  let st := (st.1, st.2 + 4)
  let st := setU32c st (14 + 40)
  -- DIB header, lines 64 to 73
  let st := setU32c st 40
  let st := setU32c st w
  let st := setU32c st h
  let st := setU16c st 1
  let st := setU16c st 24
  let st := setU32c st 0
  let st := setU32c st (pixelArraySize w h)
  let st := setU32c st 0x2e23
  let st := setU32c st 0x2e23
  st.1

/-- One iteration of the inner loop (lines 78 to 88) at source row y
and loop variable x = 3 * j.  State is (file, s); the running pixel
index s increments once per pixel.  Since v is below 2^32, the shifts
v >>> 8 and v >>> 16 are floor divisions by 256 and 65536. -/
def writePixel (w h : Nat) (data : List Nat) (y : Nat) (fs : List Nat × Nat)
    (j : Nat) : List Nat × Nat :=
  let v := u32At data fs.2
  let r := v % 256
  let g := (v / 256) % 256
  let b := (v / 65536) % 256
  let p := 14 + 40 + (h - y - 1) * stride w
  let file := setU8 fs.1 (p + 3 * j) b
  let file := setU8 file (p + 3 * j + 1) g
  let file := setU8 file (p + 3 * j + 2) r
  (file, fs.2 + 1)

/-- Inner loop of line 78, over x = 0, 3, 6, ... while x < w * 3: one
writePixel per column j < w. -/
def writeRow (w h : Nat) (data : List Nat) (fs : List Nat × Nat)
    (y : Nat) : List Nat × Nat :=
  (List.range w).foldl (writePixel w h data y) fs

/-- Method CanvasToBMP.toArrayBuffer (lines 40 to 92) as a function of
the canvas width, height and RGBA pixel bytes: write both headers, then
run the double loop over source rows y < h and columns, and return the
buffer. -/
def toArrayBuffer (w h : Nat) (data : List Nat) : List Nat :=
  ((List.range h).foldl (writeRow w h data) (headerBuf w h, 0)).1

/-- Model of toArrayBuffer including the construction of the
Uint32Array view at line 45, which throws a RangeError (modelled as
none) when the byte length of the pixel buffer is not a multiple of 4.
Through the canvas API the length is always width * height * 4, so the
real code never hits that path; it matters only for the hypothetical
mismatched buffers of the spec. -/
def toArrayBufferChecked (w h : Nat) (data : List Nat) : Option (List Nat) :=
  if data.length % 4 = 0 then some (toArrayBuffer w h data) else none

/-- Byte i of an output buffer. -/
def readByte (view : List Nat) (i : Nat) : Nat :=
  view.getD i 0

/-- Little-endian 16-bit read at offset off of an output buffer. -/
def readLE16 (view : List Nat) (off : Nat) : Nat :=
  readByte view off + 256 * readByte view (off + 1)

/-- Little-endian 32-bit read at offset off of an output buffer. -/
def readLE32 (view : List Nat) (off : Nat) : Nat :=
  readByte view off + 256 * readByte view (off + 1) +
    65536 * readByte view (off + 2) + 16777216 * readByte view (off + 3)

/-- Value of the stride expression in closed form: the formula of line
49 simplifies to 3 * w and performs no rounding up to a multiple of 4. -/
theorem stride_eq (w : Nat) : stride w = 3 * w := by
  simp [stride]
  omega

/-- Input bytes are below 256. -/
theorem byteAt_lt (data : List Nat) (i : Nat) : byteAt data i < 256 :=
  Nat.mod_lt _ (by omega)

/-- Low byte of a packed pixel word: the red channel byte (line 81). -/
theorem u32At_mod256 (data : List Nat) (s : Nat) :
    u32At data s % 256 = byteAt data (4 * s) := by
  have h0 := byteAt_lt data (4 * s)
  have h1 := byteAt_lt data (4 * s + 1)
  have h2 := byteAt_lt data (4 * s + 2)
  have h3 := byteAt_lt data (4 * s + 3)
  unfold u32At
  omega

/-- Second byte of a packed pixel word: the green channel byte
(line 82). -/
theorem u32At_div256 (data : List Nat) (s : Nat) :
    u32At data s / 256 % 256 = byteAt data (4 * s + 1) := by
  have h0 := byteAt_lt data (4 * s)
  have h1 := byteAt_lt data (4 * s + 1)
  have h2 := byteAt_lt data (4 * s + 2)
  have h3 := byteAt_lt data (4 * s + 3)
  unfold u32At
  omega

/-- Third byte of a packed pixel word: the blue channel byte
(line 83). -/
theorem u32At_div65536 (data : List Nat) (s : Nat) :
    u32At data s / 65536 % 256 = byteAt data (4 * s + 2) := by
  have h0 := byteAt_lt data (4 * s)
  have h1 := byteAt_lt data (4 * s + 1)
  have h2 := byteAt_lt data (4 * s + 2)
  have h3 := byteAt_lt data (4 * s + 3)
  unfold u32At
  omega

/-- Writing one byte preserves the buffer length. -/
theorem length_setU8 (v : List Nat) (p x : Nat) :
    (setU8 v p x).length = v.length := by
  simp [setU8]

/-- Reading away from the written position sees the previous buffer. -/
theorem readByte_setU8_ne {p q : Nat} (v : List Nat) (x : Nat) (hpq : p ≠ q) :
    readByte (setU8 v p x) q = readByte v q := by
  simp [readByte, setU8, List.getD_eq_getElem?_getD, List.getElem?_set_ne hpq]

/-- Reading at an in-range written position sees the stored byte. -/
theorem readByte_setU8_self (v : List Nat) (q x : Nat) (hq : q < v.length) :
    readByte (setU8 v q x) q = x % 256 := by
  simp [readByte, setU8, List.getD_eq_getElem?_getD,
    List.getElem?_set_eq_of_lt _ hq]

/-- Invariant preservation through a left fold on a (buffer, counter)
state: any observation of the buffer preserved by each step is
preserved by the whole fold. -/
theorem foldl_fst_invariant {α β : Type} (g : List Nat → β)
    (f : List Nat × Nat → α → List Nat × Nat)
    (hf : ∀ fs a, g (f fs a).1 = g fs.1) :
    ∀ (l : List α) (fs : List Nat × Nat), g (l.foldl f fs).1 = g fs.1 := by
  intro l
  induction l with
  | nil => intro fs; rfl
  | cons a t ih => intro fs; rw [List.foldl_cons, ih, hf]

/-- A pixel write preserves the buffer length. -/
theorem length_writePixel (w h : Nat) (data : List Nat) (y : Nat)
    (fs : List Nat × Nat) (j : Nat) :
    ((writePixel w h data y fs j).1).length = fs.1.length := by
  unfold writePixel
  simp [length_setU8]

/-- A row of pixel writes preserves the buffer length. -/
theorem length_writeRow (w h : Nat) (data : List Nat)
    (fs : List Nat × Nat) (y : Nat) :
    ((writeRow w h data fs y).1).length = fs.1.length := by
  unfold writeRow
  exact foldl_fst_invariant List.length _
    (fun fs j => length_writePixel w h data y fs j) (List.range w) fs

/-- Explicit description of the 54 header bytes, as functions of the
fileLength, width, height and pixelArraySize values. -/
def hdrList (fl w h pas : Nat) : List Nat :=
  [66, 77,
   fl % 256, fl / 256 % 256, fl / 65536 % 256, fl / 65536 / 256 % 256,
   0, 0, 0, 0,
   54, 0, 0, 0,
   40, 0, 0, 0,
   w % 256, w / 256 % 256, w / 65536 % 256, w / 65536 / 256 % 256,
   h % 256, h / 256 % 256, h / 65536 % 256, h / 65536 / 256 % 256,
   1, 0,
   24, 0,
   0, 0, 0, 0,
   pas % 256, pas / 256 % 256, pas / 65536 % 256, pas / 65536 / 256 % 256,
   35, 46, 0, 0,
   35, 46, 0, 0,
   0, 0, 0, 0, 0, 0, 0, 0]

/-- The header phase writes exactly the 54 bytes of hdrList, followed
by the zero-initialized pixel area. -/
theorem headerBuf_eq (w h : Nat) :
    headerBuf w h = hdrList (fileLength w h) w h (pixelArraySize w h)
      ++ List.replicate (pixelArraySize w h) 0 := by
  have h54 : List.replicate (fileLength w h) (0 : Nat)
      = List.replicate 54 (0 : Nat)
        ++ List.replicate (pixelArraySize w h) (0 : Nat) := by
    rw [← List.replicate_add]
    rfl
  simp only [headerBuf, setU16c, setU32c, setU32, setU16, setU8]
  rw [h54]
  simp [List.set_append, hdrList]

/-- Length of the header-phase buffer. -/
theorem length_headerBuf (w h : Nat) :
    (headerBuf w h).length = fileLength w h := by
  rw [headerBuf_eq]
  simp [hdrList, fileLength]
  omega

/-- Length of the encoder output: always 54 + 3 * w * h bytes, the
stride being 3 * w. -/
theorem length_toArrayBuffer (w h : Nat) (data : List Nat) :
    (toArrayBuffer w h data).length = 54 + 3 * w * h := by
  unfold toArrayBuffer
  rw [foldl_fst_invariant List.length _
    (fun fs y => length_writeRow w h data fs y) (List.range h)]
  rw [length_headerBuf]
  have := stride_eq w
  simp [fileLength, pixelArraySize]
  omega

/-- Pixel writes land at offsets 54 and beyond, so they leave every
header byte untouched. -/
theorem readByte_writePixel_lt (w h : Nat) (data : List Nat) (y : Nat)
    (fs : List Nat × Nat) (j q : Nat) (hq : q < 54) :
    readByte (writePixel w h data y fs j).1 q = readByte fs.1 q := by
  simp only [writePixel]
  rw [readByte_setU8_ne, readByte_setU8_ne, readByte_setU8_ne] <;> omega

/-- A whole row of pixel writes leaves every header byte untouched. -/
theorem readByte_writeRow_lt (w h : Nat) (data : List Nat)
    (fs : List Nat × Nat) (y q : Nat) (hq : q < 54) :
    readByte (writeRow w h data fs y).1 q = readByte fs.1 q := by
  unfold writeRow
  exact foldl_fst_invariant (fun v => readByte v q) _
    (fun fs j => readByte_writePixel_lt w h data y fs j q hq)
    (List.range w) fs

/-- Every one of the 54 header bytes of the output is the byte placed
there by the header phase, described by hdrList. -/
theorem readByte_toArrayBuffer_hdr (w h : Nat) (data : List Nat) (q : Nat)
    (hq : q < 54) :
    readByte (toArrayBuffer w h data) q
      = readByte (hdrList (fileLength w h) w h (pixelArraySize w h)) q := by
  unfold toArrayBuffer
  rw [foldl_fst_invariant (fun v => readByte v q) _
    (fun fs y => readByte_writeRow_lt w h data fs y q hq)
    (List.range h)]
  rw [headerBuf_eq]
  simp only [readByte]
  exact List.getD_append _ _ _ _ (by simp [hdrList]; omega)

/-- Closed form of the file length: 54 + 3 * w * h bytes. -/
theorem fileLength_eq (w h : Nat) : fileLength w h = 54 + 3 * w * h := by
  rw [fileLength, pixelArraySize, stride_eq]

/-- A pixel write reads only the three colour bytes of the current
pixel: buffers agreeing on every byte outside the alpha positions
(index 3 mod 4) produce the same write. -/
theorem writePixel_data_congr (w h : Nat) (d d' : List Nat)
    (hb : ∀ i, i % 4 ≠ 3 → byteAt d i = byteAt d' i)
    (y : Nat) (fs : List Nat × Nat) (j : Nat) :
    writePixel w h d y fs j = writePixel w h d' y fs j := by
  simp only [writePixel]
  rw [u32At_mod256, u32At_mod256, u32At_div256, u32At_div256,
    u32At_div65536, u32At_div65536]
  rw [hb (4 * fs.2) (by omega), hb (4 * fs.2 + 1) (by omega),
    hb (4 * fs.2 + 2) (by omega)]

/-- The whole encoder reads only bytes outside the alpha positions:
buffers agreeing there encode identically. -/
theorem toArrayBuffer_congr (w h : Nat) (d d' : List Nat)
    (hb : ∀ i, i % 4 ≠ 3 → byteAt d i = byteAt d' i) :
    toArrayBuffer w h d = toArrayBuffer w h d' := by
  have hp : writePixel w h d = writePixel w h d' := by
    funext y fs j
    exact writePixel_data_congr w h d d' hb y fs j
  have hr : writeRow w h d = writeRow w h d' := by
    funext fs y
    unfold writeRow
    rw [hp]
  unfold toArrayBuffer
  rw [hr]

/-- Appending a zero byte never changes a byte read: indices inside the
original list see it, indices beyond read the default 0 either way. -/
theorem byteAt_append_zero (d : List Nat) (i : Nat) :
    byteAt (d ++ [0]) i = byteAt d i := by
  induction d generalizing i with
  | nil => cases i <;> simp [byteAt]
  | cons a t ih =>
    cases i with
    | zero => simp [byteAt]
    | succ n => simpa [byteAt] using ih n

/-- Folding a step that returns its state unchanged is the identity. -/
theorem foldl_const {α β : Type} (l : List α) (b : β) :
    l.foldl (fun b _ => b) b = b := by
  induction l generalizing b with
  | nil => rfl
  | cons a t ih => rw [List.foldl_cons]; exact ih b

/-- With a zero dimension the double loop never runs: the output is
just the header buffer. -/
theorem toArrayBuffer_zero_dim (w h : Nat) (d : List Nat)
    (hwh : w = 0 ∨ h = 0) :
    toArrayBuffer w h d = headerBuf w h := by
  unfold toArrayBuffer
  rcases hwh with hw | hh
  · subst hw
    have hrow : writeRow 0 h d = fun fs _ => fs := by
      funext fs y
      rfl
    rw [hrow, foldl_const]
  · subst hh
    rw [List.range_zero, List.foldl_nil]

/-- The length field written at offset 2 is the file length reduced
modulo 2^32 (the DataView store wraps). -/
theorem readLE32_toArrayBuffer_two (w h : Nat) (d : List Nat) :
    readLE32 (toArrayBuffer w h d) 2 = fileLength w h % 4294967296 := by
  unfold readLE32
  rw [readByte_toArrayBuffer_hdr w h d 2 (by omega),
    readByte_toArrayBuffer_hdr w h d 3 (by omega),
    readByte_toArrayBuffer_hdr w h d 4 (by omega),
    readByte_toArrayBuffer_hdr w h d 5 (by omega)]
  simp [hdrList, readByte]
  omega

/-- C1: the claim states the output length is 54 + stride * height with
stride = ceil(width * 3 / 4) * 4, hence 58 bytes for a 1 by 1 image.
The code computes stride = floor((24 * w + 23) / 24) * 3 = 3 * w, which
never rounds the row length up to a multiple of 4, so the output length
is 54 + 3 * width * height: 57 bytes for the 1 by 1 image, one short of
the claimed 58. -/
theorem C1_output_length_unpadded :
    (∀ w h d, (toArrayBuffer w h d).length = 54 + 3 * w * h)
      ∧ (toArrayBuffer 1 1 [0, 0, 0, 0]).length = 57 := by
  constructor
  · exact length_toArrayBuffer
  · rw [length_toArrayBuffer]

/-- C2: the claim asserts that the stride formula of line 49,
floor((24 * width + 23) / 24) * 3, equals width * 3 rounded up to the
next multiple of 4.  It does not: the formula simplifies to 3 * width
for every width, while the rounded value at width = 1 is 4, not 3. -/
theorem C2_stride_formula_never_pads :
    (∀ w, stride w = 3 * w) ∧ stride 1 = 3 ∧ (1 * 3 + 3) / 4 * 4 = 4 := by
  refine ⟨stride_eq, by decide, by decide⟩

/-- C3: evaluation at the scenario of the claim, width 2, height 1,
pixels (255,0,0,255) and (0,255,0,255).  The bytes at offset 54 are
00 00 FF then 00 FF 00 as claimed (B, G, R order, alpha dropped), but
the buffer ends there: the code uses stride 6 = 3 * width, so there are
no padding bytes and the total length is 60, not the claimed 62 with
stride 8. -/
theorem C3_scenario_no_padding :
    (toArrayBuffer 2 1 [255, 0, 0, 255, 0, 255, 0, 255]).length = 60
      ∧ (toArrayBuffer 2 1 [255, 0, 0, 255, 0, 255, 0, 255]).drop 54
          = [0, 0, 255, 0, 255, 0] := by
  decide

/-- C9: the method only allocates a fresh buffer and writes to it, so
it embeds as a total function of (width, height, pixel bytes); two
invocations of toArrayBuffer on the same input yield byte-identical
output. -/
theorem C9_deterministic (w h : Nat) (d : List Nat) :
    toArrayBuffer w h d = toArrayBuffer w h d := rfl

/-- C5: the file header is correct for every input whose file length
fits the 32-bit length field: bytes 0 and 1 are 0x42 0x4D, the
little-endian 32-bit integer at offset 2 equals the actual length of
the returned buffer, the reserved bytes 6 to 9 are zero, and the
little-endian 32-bit integer at offset 10 is 54. -/
theorem C5_file_header_correct (w h : Nat) (d : List Nat)
    (hfl : fileLength w h < 4294967296) :
    readByte (toArrayBuffer w h d) 0 = 0x42
      ∧ readByte (toArrayBuffer w h d) 1 = 0x4d
      ∧ readLE32 (toArrayBuffer w h d) 2 = (toArrayBuffer w h d).length
      ∧ readByte (toArrayBuffer w h d) 6 = 0
      ∧ readByte (toArrayBuffer w h d) 7 = 0
      ∧ readByte (toArrayBuffer w h d) 8 = 0
      ∧ readByte (toArrayBuffer w h d) 9 = 0
      ∧ readLE32 (toArrayBuffer w h d) 10 = 54 := by
  refine ⟨?_, ?_, ?_, ?_, ?_, ?_, ?_, ?_⟩
  · rw [readByte_toArrayBuffer_hdr w h d 0 (by omega)]
    rfl
  · rw [readByte_toArrayBuffer_hdr w h d 1 (by omega)]
    rfl
  · rw [readLE32_toArrayBuffer_two, length_toArrayBuffer,
      Nat.mod_eq_of_lt hfl, fileLength_eq]
  · rw [readByte_toArrayBuffer_hdr w h d 6 (by omega)]
    rfl
  · rw [readByte_toArrayBuffer_hdr w h d 7 (by omega)]
    rfl
  · rw [readByte_toArrayBuffer_hdr w h d 8 (by omega)]
    rfl
  · rw [readByte_toArrayBuffer_hdr w h d 9 (by omega)]
    rfl
  · unfold readLE32
    rw [readByte_toArrayBuffer_hdr w h d 10 (by omega),
      readByte_toArrayBuffer_hdr w h d 11 (by omega),
      readByte_toArrayBuffer_hdr w h d 12 (by omega),
      readByte_toArrayBuffer_hdr w h d 13 (by omega)]
    rfl

/-- Closed instance of C5 at a concrete input, discharging its
hypothesis. -/
theorem C5_witness :
    fileLength 1 1 < 4294967296
      ∧ readLE32 (toArrayBuffer 1 1 [10, 20, 30, 40]) 2
          = (toArrayBuffer 1 1 [10, 20, 30, 40]).length :=
  ⟨by decide, (C5_file_header_correct 1 1 [10, 20, 30, 40] (by decide)).2.2.1⟩

/-- C4 counterexample: the claim says the two resolution fields hold a
constant of about 2835 pixels per meter (about 72 DPI).  The code
writes 0x2e23 = 11811 pixels per meter, which is 300 DPI, already at
the smallest input. -/
theorem C4_resolution_counterexample :
    readLE32 (toArrayBuffer 1 1 [0, 0, 0, 0]) 38 = 11811
      ∧ (11811 : Nat) ≠ 2835 := by
  decide

/-- C4 as amended: for every input whose width, height and pixel array
size fit 32 bits, the DIB header contains, little-endian: header size
40, the width, the height (a plain non-negative value), plane count 1,
bits per pixel 24, compression 0, pixelArraySize = stride * height with
the stride the code computes (3 * width), both resolutions equal to
11811 pixels per meter (300 DPI, not the claimed 2835), and 8 zero
color-table bytes. -/
theorem C4_dib_header_correct (w h : Nat) (d : List Nat)
    (hw : w < 4294967296) (hh : h < 4294967296)
    (hpas : pixelArraySize w h < 4294967296) :
    readLE32 (toArrayBuffer w h d) 14 = 40
      ∧ readLE32 (toArrayBuffer w h d) 18 = w
      ∧ readLE32 (toArrayBuffer w h d) 22 = h
      ∧ readLE16 (toArrayBuffer w h d) 26 = 1
      ∧ readLE16 (toArrayBuffer w h d) 28 = 24
      ∧ readLE32 (toArrayBuffer w h d) 30 = 0
      ∧ readLE32 (toArrayBuffer w h d) 34 = pixelArraySize w h
      ∧ readLE32 (toArrayBuffer w h d) 38 = 11811
      ∧ readLE32 (toArrayBuffer w h d) 42 = 11811
      ∧ (∀ i, 46 ≤ i → i < 54 → readByte (toArrayBuffer w h d) i = 0) := by
  refine ⟨?_, ?_, ?_, ?_, ?_, ?_, ?_, ?_, ?_, ?_⟩
  · unfold readLE32
    rw [readByte_toArrayBuffer_hdr w h d 14 (by omega),
      readByte_toArrayBuffer_hdr w h d 15 (by omega),
      readByte_toArrayBuffer_hdr w h d 16 (by omega),
      readByte_toArrayBuffer_hdr w h d 17 (by omega)]
    rfl
  · unfold readLE32
    rw [readByte_toArrayBuffer_hdr w h d 18 (by omega),
      readByte_toArrayBuffer_hdr w h d 19 (by omega),
      readByte_toArrayBuffer_hdr w h d 20 (by omega),
      readByte_toArrayBuffer_hdr w h d 21 (by omega)]
    simp [hdrList, readByte]
    omega
  · unfold readLE32
    rw [readByte_toArrayBuffer_hdr w h d 22 (by omega),
      readByte_toArrayBuffer_hdr w h d 23 (by omega),
      readByte_toArrayBuffer_hdr w h d 24 (by omega),
      readByte_toArrayBuffer_hdr w h d 25 (by omega)]
    simp [hdrList, readByte]
    omega
  · unfold readLE16
    rw [readByte_toArrayBuffer_hdr w h d 26 (by omega),
      readByte_toArrayBuffer_hdr w h d 27 (by omega)]
    rfl
  · unfold readLE16
    rw [readByte_toArrayBuffer_hdr w h d 28 (by omega),
      readByte_toArrayBuffer_hdr w h d 29 (by omega)]
    rfl
  · unfold readLE32
    rw [readByte_toArrayBuffer_hdr w h d 30 (by omega),
      readByte_toArrayBuffer_hdr w h d 31 (by omega),
      readByte_toArrayBuffer_hdr w h d 32 (by omega),
      readByte_toArrayBuffer_hdr w h d 33 (by omega)]
    rfl
  · unfold readLE32
    rw [readByte_toArrayBuffer_hdr w h d 34 (by omega),
      readByte_toArrayBuffer_hdr w h d 35 (by omega),
      readByte_toArrayBuffer_hdr w h d 36 (by omega),
      readByte_toArrayBuffer_hdr w h d 37 (by omega)]
    simp [hdrList, readByte]
    omega
  · unfold readLE32
    rw [readByte_toArrayBuffer_hdr w h d 38 (by omega),
      readByte_toArrayBuffer_hdr w h d 39 (by omega),
      readByte_toArrayBuffer_hdr w h d 40 (by omega),
      readByte_toArrayBuffer_hdr w h d 41 (by omega)]
    rfl
  · unfold readLE32
    rw [readByte_toArrayBuffer_hdr w h d 42 (by omega),
      readByte_toArrayBuffer_hdr w h d 43 (by omega),
      readByte_toArrayBuffer_hdr w h d 44 (by omega),
      readByte_toArrayBuffer_hdr w h d 45 (by omega)]
    rfl
  · intro i h1 h2
    rw [readByte_toArrayBuffer_hdr w h d i h2]
    interval_cases i <;> rfl

/-- Closed instance of C4 at a concrete input, discharging its
hypotheses. -/
theorem C4_dib_header_witness :
    pixelArraySize 2 3 < 4294967296
      ∧ readLE32 (toArrayBuffer 2 3 (List.replicate 24 7)) 18 = 2
      ∧ readLE32 (toArrayBuffer 2 3 (List.replicate 24 7)) 34
          = pixelArraySize 2 3 :=
  ⟨by decide,
    (C4_dib_header_correct 2 3 (List.replicate 24 7) (by decide) (by decide)
      (by decide)).2.1,
    (C4_dib_header_correct 2 3 (List.replicate 24 7) (by decide) (by decide)
      (by decide)).2.2.2.2.2.2.1⟩

/-- C6 counterexample: the claim says width 0 or height 0 fails with an
InvalidDimensions error and produces no output.  The code contains no
dimension check: at width = height = 0 it succeeds and returns a
54-byte header-only buffer. -/
theorem C6_counterexample :
    (toArrayBufferChecked 0 0 []).isSome = true
      ∧ (toArrayBuffer 0 0 []).length = 54 := by
  decide

/-- C6 as amended: the encoder performs no dimension validation.  For
width = 0 or height = 0 (with the correspondingly empty pixel buffer)
it raises no error and returns the 54-byte buffer holding only the two
headers. -/
theorem C6_no_dimension_check (w h : Nat) (d : List Nat)
    (hwh : w = 0 ∨ h = 0) (hd : d.length = w * h * 4) :
    toArrayBufferChecked w h d = some (headerBuf w h)
      ∧ (toArrayBuffer w h d).length = 54 := by
  have h4 : d.length % 4 = 0 := by omega
  constructor
  · rw [toArrayBufferChecked, if_pos h4, toArrayBuffer_zero_dim w h d hwh]
  · rw [length_toArrayBuffer]
    rcases hwh with hw | hh
    · subst hw; omega
    · subst hh; omega

/-- Closed instance of C6 at a concrete input, discharging its
hypotheses. -/
theorem C6_witness :
    toArrayBufferChecked 0 2 [] = some (headerBuf 0 2) :=
  (C6_no_dimension_check 0 2 [] (Or.inl rfl) (by decide)).1

/-- C7 counterexample: the claim says any pixel buffer whose length
differs from width * height * 4 fails with a BufferSizeMismatch error
and produces no output.  A mismatch by a whole pixel (the empty buffer
for a 1 by 1 image) raises no error at all: the encoder returns a full
57-byte file, reading the missing bytes as zero. -/
theorem C7_counterexample :
    ([] : List Nat).length ≠ 1 * 1 * 4
      ∧ toArrayBufferChecked 1 1 [] = some (toArrayBuffer 1 1 [])
      ∧ (toArrayBuffer 1 1 []).length = 57 := by
  decide

/-- C7 as amended: the encoder has no buffer-length check.  A buffer
one byte short of width * height * 4 does fail with no output, but only
because its length is not a multiple of 4, which makes the Uint32Array
view construction of line 45 throw a RangeError; and the missing data
is otherwise read as zero, so the short buffer padded with a zero byte
encodes to the identical file. -/
theorem C7_short_buffer (w h : Nat) (d : List Nat)
    (hd : d.length + 1 = w * h * 4) :
    toArrayBufferChecked w h d = none
      ∧ toArrayBuffer w h (d ++ [0]) = toArrayBuffer w h d := by
  constructor
  · rw [toArrayBufferChecked, if_neg]
    omega
  · exact toArrayBuffer_congr w h (d ++ [0]) d
      (fun i _ => byteAt_append_zero d i)

/-- Closed instance of C7 at a concrete input, discharging its
hypothesis. -/
theorem C7_short_buffer_witness :
    toArrayBufferChecked 1 1 [1, 2, 3] = none :=
  (C7_short_buffer 1 1 [1, 2, 3] (by decide)).1

/-- C8: the encoder never inspects the alpha channel.  Two valid pixel
buffers of the same dimensions whose bytes agree at every non-alpha
index (every index not congruent to 3 mod 4, that is every R, G and B
byte) encode to byte-identical outputs, whatever their alpha bytes. -/
theorem C8_alpha_never_inspected (w h : Nat) (d d' : List Nat)
    (hd : d.length = w * h * 4) (hd' : d'.length = w * h * 4)
    (hrgb : ∀ i, i % 4 ≠ 3 → byteAt d i = byteAt d' i) :
    toArrayBuffer w h d = toArrayBuffer w h d' :=
  toArrayBuffer_congr w h d d' hrgb

/-- Closed instance of C8: a fully opaque and a fully transparent red
pixel encode identically. -/
theorem C8_alpha_witness :
    toArrayBuffer 1 1 [255, 0, 0, 255] = toArrayBuffer 1 1 [255, 0, 0, 0] :=
  C8_alpha_never_inspected 1 1 [255, 0, 0, 255] [255, 0, 0, 0]
    (by decide) (by decide)
    (by
      intro i hi
      rcases i with _ | _ | _ | _ | n
      · rfl
      · rfl
      · rfl
      · exact absurd rfl hi
      · simp [byteAt])

/-- C10 counterexample: the claim asserts that for a zero dimension the
stride (and the pixel array size) are 0.  At width 1, height 0 the
stride the code computes is 3, not 0, even though the output is indeed
the bare 54-byte header. -/
theorem C10_counterexample :
    stride 1 = 3 ∧ (toArrayBuffer 1 0 []).length = 54 := by
  decide

/-- C10 as amended: for width = 0 or height = 0 the encoder raises no
error and returns a 54-byte buffer holding only the two headers; the
pixel array size is 0 and the pixel loop runs zero times, and the
length field at offset 2 equals 54.  The stride itself is 0 only when
width = 0; for height = 0 it is 3 * width. -/
theorem C10_zero_dims_header_only (w h : Nat) (d : List Nat)
    (hwh : w = 0 ∨ h = 0) :
    toArrayBuffer w h d = headerBuf w h
      ∧ (toArrayBuffer w h d).length = 54
      ∧ pixelArraySize w h = 0
      ∧ readLE32 (toArrayBuffer w h d) 2 = 54 := by
  have hpas : pixelArraySize w h = 0 := by
    rw [pixelArraySize, stride_eq]
    rcases hwh with hw | hh
    · subst hw; omega
    · subst hh; omega
  refine ⟨toArrayBuffer_zero_dim w h d hwh, ?_, hpas, ?_⟩
  · rw [length_toArrayBuffer]
    rcases hwh with hw | hh
    · subst hw; omega
    · subst hh; omega
  · rw [readLE32_toArrayBuffer_two, fileLength, hpas]

/-- Closed instance of C10 at a concrete input, discharging its
hypothesis. -/
theorem C10_zero_dims_witness :
    toArrayBuffer 1 0 [] = headerBuf 1 0
      ∧ readLE32 (toArrayBuffer 1 0 []) 2 = 54 :=
  ⟨(C10_zero_dims_header_only 1 0 [] (Or.inr rfl)).1,
    (C10_zero_dims_header_only 1 0 [] (Or.inr rfl)).2.2.2⟩

/-- Complete description of a byte read after a byte store: the stored
value when the store hit that in-range position, the previous byte
otherwise (an out-of-range store is a no-op). -/
theorem readByte_setU8 (v : List Nat) (p x q : Nat) :
    readByte (setU8 v p x) q
      = if p = q ∧ p < v.length then x % 256 else readByte v q := by
  by_cases h : p = q ∧ p < v.length
  · obtain ⟨he, hl⟩ := h
    subst he
    rw [if_pos ⟨rfl, hl⟩]
    exact readByte_setU8_self v p x hl
  · rw [if_neg h]
    rcases Decidable.em (p = q) with he | hne
    · subst he
      have hl : v.length ≤ p := by
        rcases Nat.lt_or_ge p v.length with hlt | hge
        · exact absurd ⟨rfl, hlt⟩ h
        · exact hge
      unfold readByte setU8
      rw [List.getD_eq_getElem?_getD, List.getD_eq_getElem?_getD,
        List.getElem?_set_self', List.getElem?_eq_none hl]
      rfl
    · exact readByte_setU8_ne v x hne

/-- Distinctness of pixel-write positions: writes of destination row a,
column j, channel c and of destination row a0, column j0, channel c0
coincide only when row, column and channel all coincide. -/
theorem writePos_ne {w a a0 j j0 c c0 : Nat} (hj : j < w) (hj0 : j0 < w)
    (hc : c < 3) (hc0 : c0 < 3)
    (hne : a ≠ a0 ∨ 3 * j + c ≠ 3 * j0 + c0) :
    54 + a * (3 * w) + (3 * j + c) ≠ 54 + a0 * (3 * w) + (3 * j0 + c0) := by
  intro heq
  rcases Nat.lt_trichotomy a a0 with hlt | heqa | hgt
  · have h1 : (a + 1) * (3 * w) ≤ a0 * (3 * w) :=
      Nat.mul_le_mul (by omega) (le_refl _)
    rw [Nat.add_mul] at h1
    omega
  · subst heqa
    rcases hne with hcon | hcon
    · exact hcon rfl
    · omega
  · have h1 : (a0 + 1) * (3 * w) ≤ a * (3 * w) :=
      Nat.mul_le_mul (by omega) (le_refl _)
    rw [Nat.add_mul] at h1
    omega

/-- The pixel counter advances by one per processed pixel. -/
theorem foldl_writePixel_snd (w h : Nat) (d : List Nat) (y : Nat) :
    ∀ (l : List Nat) (fs : List Nat × Nat),
      (l.foldl (writePixel w h d y) fs).2 = fs.2 + l.length := by
  intro l
  induction l with
  | nil => intro fs; rfl
  | cons a t ih =>
    intro fs
    rw [List.foldl_cons, ih]
    simp [writePixel]
    omega

/-- The pixel counter advances by the width per processed row. -/
theorem foldl_writeRow_snd (w h : Nat) (d : List Nat) :
    ∀ (l : List Nat) (fs : List Nat × Nat),
      (l.foldl (writeRow w h d) fs).2 = fs.2 + l.length * w := by
  intro l
  induction l with
  | nil => intro fs; simp
  | cons a t ih =>
    intro fs
    rw [List.foldl_cons, ih]
    unfold writeRow
    rw [foldl_writePixel_snd]
    simp
    ring

/-- Membership-conditioned version of the fold invariant. -/
theorem foldl_fst_invariant_mem {α β : Type} (g : List Nat → β)
    (f : List Nat × Nat → α → List Nat × Nat) :
    ∀ (l : List α), (∀ fs a, a ∈ l → g (f fs a).1 = g fs.1) →
      ∀ fs, g (l.foldl f fs).1 = g fs.1 := by
  intro l
  induction l with
  | nil => intro _ fs; rfl
  | cons a t ih =>
    intro hf fs
    rw [List.foldl_cons,
      ih (fun fs b hb => hf fs b (List.mem_cons_of_mem a hb)),
      hf fs a (List.mem_cons_self a t)]

/-- A pixel write leaves any byte other than its own three positions
unchanged. -/
theorem readByte_writePixel_ne (w h : Nat) (d : List Nat) (y : Nat)
    (fs : List Nat × Nat) (j q : Nat)
    (h0 : 14 + 40 + (h - y - 1) * stride w + 3 * j ≠ q)
    (h1 : 14 + 40 + (h - y - 1) * stride w + 3 * j + 1 ≠ q)
    (h2 : 14 + 40 + (h - y - 1) * stride w + 3 * j + 2 ≠ q) :
    readByte (writePixel w h d y fs j).1 q = readByte fs.1 q := by
  simp only [writePixel]
  rw [readByte_setU8_ne _ _ h2, readByte_setU8_ne _ _ h1,
    readByte_setU8_ne _ _ h0]

/-- A row of pixel writes leaves any byte outside its own positions
unchanged. -/
theorem readByte_writeRow_ne (w h : Nat) (d : List Nat)
    (fs : List Nat × Nat) (y q : Nat)
    (hq : ∀ j c, j < w → c < 3 →
      14 + 40 + (h - y - 1) * stride w + (3 * j + c) ≠ q) :
    readByte (writeRow w h d fs y).1 q = readByte fs.1 q := by
  unfold writeRow
  refine foldl_fst_invariant_mem (fun v => readByte v q) _ (List.range w)
    ?_ fs
  intro fs j hj
  have hjw : j < w := List.mem_range.mp hj
  refine readByte_writePixel_ne w h d y fs j q ?_ ?_ ?_
  · have := hq j 0 hjw (by omega)
    omega
  · have := hq j 1 hjw (by omega)
    omega
  · have := hq j 2 hjw (by omega)
    omega

/-- Values of the three bytes just written by a pixel write: the blue
channel byte at the base offset, then green, then red. -/
theorem readByte_writePixel_self (w h : Nat) (d : List Nat) (y : Nat)
    (fs : List Nat × Nat) (j : Nat)
    (hlen : 14 + 40 + (h - y - 1) * stride w + 3 * j + 2 < fs.1.length) :
    readByte (writePixel w h d y fs j).1
        (14 + 40 + (h - y - 1) * stride w + 3 * j)
      = byteAt d (4 * fs.2 + 2)
    ∧ readByte (writePixel w h d y fs j).1
        (14 + 40 + (h - y - 1) * stride w + 3 * j + 1)
      = byteAt d (4 * fs.2 + 1)
    ∧ readByte (writePixel w h d y fs j).1
        (14 + 40 + (h - y - 1) * stride w + 3 * j + 2)
      = byteAt d (4 * fs.2) := by
  have hu0 := u32At_mod256 d fs.2
  have hu1 := u32At_div256 d fs.2
  have hu2 := u32At_div65536 d fs.2
  have hb0 := byteAt_lt d (4 * fs.2)
  have hb1 := byteAt_lt d (4 * fs.2 + 1)
  have hb2 := byteAt_lt d (4 * fs.2 + 2)
  simp only [writePixel]
  set P := 14 + 40 + (h - y - 1) * stride w + 3 * j with hP
  have e20 : P + 2 ≠ P := by omega
  have e21 : P + 2 ≠ P + 1 := by omega
  have e10 : P + 1 ≠ P := by omega
  have hs1 := readByte_setU8_self fs.1 P
    (u32At d fs.2 / 65536 % 256) (by omega)
  have hs2 := readByte_setU8_self
    (setU8 fs.1 P (u32At d fs.2 / 65536 % 256)) (P + 1)
    (u32At d fs.2 / 256 % 256) (by rw [length_setU8]; omega)
  have hs3 := readByte_setU8_self
    (setU8 (setU8 fs.1 P (u32At d fs.2 / 65536 % 256)) (P + 1)
      (u32At d fs.2 / 256 % 256)) (P + 2)
    (u32At d fs.2 % 256) (by rw [length_setU8, length_setU8]; omega)
  refine ⟨?_, ?_, ?_⟩
  · rw [readByte_setU8_ne _ _ e20, readByte_setU8_ne _ _ e10, hs1]
    omega
  · rw [readByte_setU8_ne _ _ e21, hs2]
    omega
  · rw [hs3]
    omega

/-- Within a row, after at least x0 + 1 pixels have been processed, the
three bytes of pixel x0 hold the blue, green and red channel bytes of
source pixel number (initial counter + x0). -/
theorem readByte_row_aux (w h : Nat) (d : List Nat) (y x0 c : Nat)
    (hc : c < 3) :
    ∀ (n : Nat) (fs : List Nat × Nat), x0 < n →
      14 + 40 + (h - y - 1) * stride w + 3 * x0 + 2 < fs.1.length →
      readByte ((List.range n).foldl (writePixel w h d y) fs).1
          (14 + 40 + (h - y - 1) * stride w + 3 * x0 + c)
        = byteAt d (4 * (fs.2 + x0) + (2 - c)) := by
  intro n
  induction n with
  | zero => intro fs h1 _; omega
  | succ m ih =>
    intro fs hx0n hlen
    rw [List.range_succ, List.foldl_append]
    simp only [List.foldl_cons, List.foldl_nil]
    rcases Nat.lt_or_ge x0 m with hlt | hge
    · rw [readByte_writePixel_ne w h d y _ m _ (by omega) (by omega)
        (by omega)]
      exact ih fs hlt hlen
    · have hx0m : x0 = m := by omega
      subst hx0m
      have hplen : ((List.range x0).foldl (writePixel w h d y) fs).1.length
          = fs.1.length :=
        foldl_fst_invariant List.length _
          (fun fs j => length_writePixel w h d y fs j) _ fs
      have hpsnd : ((List.range x0).foldl (writePixel w h d y) fs).2
          = fs.2 + x0 := by
        rw [foldl_writePixel_snd, List.length_range]
      have hself := readByte_writePixel_self w h d y
        ((List.range x0).foldl (writePixel w h d y) fs) x0
        (by rw [hplen]; omega)
      rw [hpsnd] at hself
      interval_cases c
      · simpa using hself.1
      · simpa using hself.2.1
      · simpa using hself.2.2

/-- After at least y0 + 1 rows have been processed, the three bytes of
column x0 in destination row h - y0 - 1 hold the blue, green and red
channel bytes of the source pixel at row y0, column x0. -/
theorem readByte_rows_aux (w h : Nat) (d : List Nat) (y0 x0 c : Nat)
    (hc : c < 3) (hx0 : x0 < w) (hy0 : y0 < h) :
    ∀ (n : Nat) (fs : List Nat × Nat), y0 < n → n ≤ h →
      fs.1.length = fileLength w h →
      readByte ((List.range n).foldl (writeRow w h d) fs).1
          (14 + 40 + (h - y0 - 1) * stride w + 3 * x0 + c)
        = byteAt d (4 * ((fs.2 + y0 * w) + x0) + (2 - c)) := by
  intro n
  induction n with
  | zero => intro fs h1 _ _; omega
  | succ m ih =>
    intro fs hy0n hnh hlen
    rw [List.range_succ, List.foldl_append]
    simp only [List.foldl_cons, List.foldl_nil]
    rcases Nat.lt_or_ge y0 m with hlt | hge
    · have hq : ∀ j c2, j < w → c2 < 3 →
          14 + 40 + (h - m - 1) * stride w + (3 * j + c2)
            ≠ 14 + 40 + (h - y0 - 1) * stride w + 3 * x0 + c := by
        intro j c2 hj hc2
        have hS : stride w = 3 * w := stride_eq w
        have hmul : ((h - m - 1) + 1) * stride w
            ≤ (h - y0 - 1) * stride w :=
          Nat.mul_le_mul (by omega) (le_refl _)
        rw [Nat.add_mul] at hmul
        omega
      rw [readByte_writeRow_ne w h d _ m _ hq]
      exact ih fs hlt (by omega) hlen
    · have hy0m : y0 = m := by omega
      subst hy0m
      have hplen : ((List.range y0).foldl (writeRow w h d) fs).1.length
          = fileLength w h := by
        rw [foldl_fst_invariant List.length _
          (fun fs y => length_writeRow w h d fs y) _ fs, hlen]
      have hpsnd : ((List.range y0).foldl (writeRow w h d) fs).2
          = fs.2 + y0 * w := by
        rw [foldl_writeRow_snd, List.length_range]
      have hS : stride w = 3 * w := stride_eq w
      have k1 : (h - y0 - 1) * stride w ≤ (h - 1) * stride w :=
        Nat.mul_le_mul (by omega) (le_refl _)
      have k2 : (h - 1) * stride w + 1 * stride w = h * stride w := by
        rw [← Nat.add_mul, show h - 1 + 1 = h from by omega]
      have k3 : h * stride w = stride w * h := Nat.mul_comm h (stride w)
      have hfl : fileLength w h = 14 + 40 + stride w * h := rfl
      rw [writeRow]
      rw [readByte_row_aux w h d y0 x0 c hc w
        ((List.range y0).foldl (writeRow w h d) fs) hx0
        (by rw [hplen]; omega)]
      rw [hpsnd]

/-- Pixel placement: for every source pixel at column x0 and row y0 of
a w by h canvas, the output stores at offset
54 + (h - y0 - 1) * stride + 3 * x0 the three bytes B, G, R of that
pixel (alpha dropped), in destination row h - 1 - y0: the vertical
order is inverted and the channels are reordered, with the stride the
code computes (3 * w). -/
theorem pixel_placement (w h : Nat) (d : List Nat) (y0 x0 c : Nat)
    (hy0 : y0 < h) (hx0 : x0 < w) (hc : c < 3) :
    readByte (toArrayBuffer w h d)
        (54 + (h - y0 - 1) * stride w + 3 * x0 + c)
      = byteAt d (4 * (y0 * w + x0) + (2 - c)) := by
  unfold toArrayBuffer
  generalize hB : headerBuf w h = B
  have hBlen : B.length = fileLength w h := by
    rw [← hB]
    exact length_headerBuf w h
  have haux := readByte_rows_aux w h d y0 x0 c hc hx0 hy0 h
    (B, 0) hy0 (le_refl h) hBlen
  rw [show ((B, (0 : Nat))).2 = 0 from rfl, Nat.zero_add] at haux
  rw [show 14 + 40 + (h - y0 - 1) * stride w + 3 * x0 + c
      = 54 + (h - y0 - 1) * stride w + 3 * x0 + c from by omega] at haux
  exact haux
